import Mathlib

/-!
Verification of the deno_jxa core: the protocol bridge line parser
(`JXASessionWorker.execute`), the worker reply protocol (`self.onmessage`),
the foreground decode (`JXASession.#sendMessage`), and the remote-object
proxy system (`wrap`/`unwrap`/`owns`/proxy get, set, apply).

JavaScript strings are modelled as Lean `String`s (lists of characters),
JS numbers are restricted to integers, and the platform builtins
`JSON.stringify` / `JSON.parse` are modelled by an executable canonical
JSON printer and recursive-descent parser over characters.
-/

namespace DenoJxa

/-! ### Decimal digits: model of JS number-to-string template interpolation -/
def isDigit (c : Char) : Bool := 48 ≤ c.toNat && c.toNat ≤ 57

def digitChar (d : Nat) : Char := Char.ofNat (48 + d)

def digitVal (c : Char) : Nat := c.toNat - 48

/-- Little-endian decimal digits of `n`, with fuel for structural recursion. -/
def natDigitsAux : Nat → Nat → List Char
  | _, 0 => []
  | 0, _ + 1 => []
  | fuel + 1, n + 1 => digitChar ((n + 1) % 10) :: natDigitsAux fuel ((n + 1) / 10)

/-- Decimal rendering of a natural number, as JS renders nonnegative integers. -/
def natToChars (n : Nat) : List Char :=
  if n = 0 then ['0'] else (natDigitsAux n n).reverse

def natToString (n : Nat) : String := String.mk (natToChars n)

def charsToNat (cs : List Char) : Nat :=
  cs.foldl (fun a c => 10 * a + digitVal c) 0

/-! ### Taking a digit run off the front of the input (number parsing) -/
def takeDigits : List Char → List Char × List Char
  | [] => ([], [])
  | c :: cs =>
    if isDigit c then
      let p := takeDigits cs
      (c :: p.1, p.2)
    else ([], c :: cs)

/-- The first character of `rest`, if any, is not a decimal digit. -/
def noLeadingDigit : List Char → Prop
  | [] => True
  | c :: _ => isDigit c = false

instance : DecidablePred noLeadingDigit := by
  intro cs
  cases cs <;> simp [noLeadingDigit] <;> infer_instance

def parseNat (cs : List Char) : Option (Nat × List Char) :=
  let p := takeDigits cs
  if p.1 = [] then none else some (charsToNat p.1, p.2)

/-! ### JS string primitives used by the bridge -/
/-- `startsWithChars pre cs`: `pre` is a prefix of `cs`. -/
def startsWithChars : List Char → List Char → Bool
  | [], _ => true
  | _ :: _, [] => false
  | p :: ps, c :: cs => p = c && startsWithChars ps cs

/-- Model of JS `line.startsWith(pre)`. -/
def jsStartsWith (line pre : String) : Bool := startsWithChars pre.data line.data

/-- Model of JS `s.includes(c)` for a single character. -/
def hasChar (s : String) (c : Char) : Bool := s.data.contains c

/-- The WhiteSpace and LineTerminator characters trimmed by JS `String.prototype.trim`. -/
def isJsWhitespace (c : Char) : Bool :=
  c.toNat = 9 || c.toNat = 10 || c.toNat = 11 || c.toNat = 12 || c.toNat = 13 ||
    c.toNat = 32 || c.toNat = 160 || c.toNat = 8232 || c.toNat = 8233 || c.toNat = 65279

/-- Model of JS `code.trim()`. -/
def jsTrim (s : String) : String :=
  String.mk (((s.data.dropWhile isJsWhitespace).reverse.dropWhile isJsWhitespace).reverse)

/-- Model of JS `line.slice(3)`, used to strip a 3-character marker. -/
def dropMarker (s : String) : String := String.mk (s.data.drop 3)

/-! ### Protocol bridge: `JXASessionWorker.execute` (src/unnamed/part_000, mirrored
by `JXASession.execute` in src/src/session.ts) -/
inductive ExecResult where
  | ok (result : String)
  | replError (captured : String)
  | streamEnded
  | multiLine
deriving DecidableEq

/-- The `while (true)` line-reading loop of `execute`, translated guard by guard.
`result`/`isError` are the loop's mutable locals; the line list is the child's
output stream, whose exhaustion is the `done` case (`StreamEndedError`). -/
def readLoop : Option String → Bool → List String → ExecResult
  | _, _, [] => .streamEnded
  | result, isError, line :: rest =>
    if result.isNone && jsStartsWith line ">> " then
      readLoop result isError rest
    else if result.isNone && !jsStartsWith line "=> " && !jsStartsWith line "!! " then
      readLoop result isError rest
    else if jsStartsWith line "=> " then
      match result with
      | none => readLoop (some (dropMarker line)) false rest
      | some _ => readLoop result isError rest
    else if jsStartsWith line "!! " then
      match result with
      | none => readLoop (some (dropMarker line)) true rest
      | some _ => readLoop result isError rest
    else if jsStartsWith line ">> " && result.isSome then
      -- the guard guarantees `result` is `some`; `getD` only discharges the pattern
      if isError then .replError (result.getD "") else .ok (result.getD "")
    else
      match result with
      | some r => readLoop (some (r ++ "\n" ++ line)) isError rest
      | none => readLoop result isError rest

/-- `execute(code)` given the child's subsequent output lines: the multi-line
guard, the write of `trim(code) + "\n\n"` to the child's stdin (second
component collects everything written), then the read loop. -/
def execute (code : String) (lines : List String) : ExecResult × List String :=
  let trimmedCode := jsTrim code
  if hasChar trimmedCode '\n' then (.multiLine, [])
  else (readLoop none false lines, [trimmedCode ++ "\n\n"])

/-! ### The spec's two-state parsing machine, written from the spec's words -/
inductive ParserState where
  | awaitingResult
  | haveResult (captured : String) (isError : Bool)

/-- The two-state machine of the spec: `AWAITING_RESULT` skips prompt echo and
chatter and captures the first success/error marker line; `HAVE_RESULT` skips
the trailing empty submission's markers, appends continuation lines prefixed
by a newline, and finishes on the next prompt line. -/
def specMachine : ParserState → List String → ExecResult
  | _, [] => .streamEnded
  | .awaitingResult, line :: rest =>
    if jsStartsWith line ">> " then specMachine .awaitingResult rest
    else if jsStartsWith line "=> " then specMachine (.haveResult (dropMarker line) false) rest
    else if jsStartsWith line "!! " then specMachine (.haveResult (dropMarker line) true) rest
    else specMachine .awaitingResult rest
  | .haveResult captured isError, line :: rest =>
    if jsStartsWith line "=> " || jsStartsWith line "!! " then
      specMachine (.haveResult captured isError) rest
    else if jsStartsWith line ">> " then
      if isError then .replError captured else .ok captured
    else specMachine (.haveResult (captured ++ "\n" ++ line) isError) rest

/-! ### JSON: model of the platform builtins `JSON.stringify` and `JSON.parse`
(the repository calls them in `wrap`, `unwrap`, proxy get/set/apply and the
worker error serialization).  JSON-representable values are numbers
(restricted to integers here), strings, arrays and plain objects; the printer
produces the canonical whitespace-free form these builtins emit, and the
parser is a recursive-descent parser for that grammar. -/
inductive Json where
  | num (n : Int)
  | str (s : String)
  | arr (elems : List Json)
  | obj (fields : List (String × Json))

def hexDigitChar (d : Nat) : Char :=
  if d < 10 then digitChar d else Char.ofNat (87 + d)

def hexVal (c : Char) : Nat :=
  if 48 ≤ c.toNat && c.toNat ≤ 57 then c.toNat - 48
  else if 97 ≤ c.toNat && c.toNat ≤ 102 then c.toNat - 87
  else if 65 ≤ c.toNat && c.toNat ≤ 70 then c.toNat - 55
  else 0

/-- JSON string escaping of one character, as `JSON.stringify` performs it:
quote and backslash get a backslash escape, the five named control characters
get their short escapes, other control characters get `\u00XX`, and everything
else is emitted verbatim. -/
def encodeChar (c : Char) : List Char :=
  if c = '"' then ['\\', '"']
  else if c = '\\' then ['\\', '\\']
  else if c = '\x08' then ['\\', 'b']
  else if c = '\x09' then ['\\', 't']
  else if c = '\x0a' then ['\\', 'n']
  else if c = '\x0c' then ['\\', 'f']
  else if c = '\x0d' then ['\\', 'r']
  else if c.toNat < 32 then
    ['\\', 'u', '0', '0', hexDigitChar (c.toNat / 16), hexDigitChar (c.toNat % 16)]
  else [c]

def encodeChars : List Char → List Char
  | [] => []
  | c :: cs => encodeChar c ++ encodeChars cs

/-- A JSON string literal: quote, escaped contents, quote. -/
def encodeStringChars (s : String) : List Char :=
  '"' :: (encodeChars s.data ++ ['"'])

def intToChars (i : Int) : List Char :=
  if i < 0 then '-' :: natToChars i.natAbs else natToChars i.natAbs

mutual
def stringifyChars : Json → List Char
  | .num n => intToChars n
  | .str s => encodeStringChars s
  | .arr es => '[' :: (stringifyElems es ++ [']'])
  | .obj fs => '\x7b' :: (stringifyFields fs ++ ['\x7d'])

def stringifyElems : List Json → List Char
  | [] => []
  | [v] => stringifyChars v
  | v :: w :: vs => stringifyChars v ++ ',' :: stringifyElems (w :: vs)

def stringifyFields : List (String × Json) → List Char
  | [] => []
  | [(k, v)] => encodeStringChars k ++ ':' :: stringifyChars v
  | (k, v) :: f :: fs =>
    encodeStringChars k ++ ':' :: stringifyChars v ++ ',' :: stringifyFields (f :: fs)
end

/-- Model of `JSON.stringify`. -/
def jsonStringify (v : Json) : String := String.mk (stringifyChars v)

def unescapeChar : Char → Option Char
  | '"' => some '"'
  | '\\' => some '\\'
  | '/' => some '/'
  | 'b' => some '\x08'
  | 'f' => some '\x0c'
  | 'n' => some '\x0a'
  | 'r' => some '\x0d'
  | 't' => some '\x09'
  | _ => none

/-- Parse the body of a JSON string literal after its opening quote, up to and
including the closing quote; returns the unescaped contents and the rest. -/
def parseStringBody : List Char → Option (List Char × List Char)
  | [] => none
  | c :: cs =>
    if c = '"' then some ([], cs)
    else if c = '\\' then
      match cs with
      | [] => none
      | e :: cs' =>
        if e = 'u' then
          match cs' with
          | h1 :: h2 :: h3 :: h4 :: cs'' =>
            (parseStringBody cs'').map fun p =>
              (Char.ofNat (((hexVal h1 * 16 + hexVal h2) * 16 + hexVal h3) * 16 + hexVal h4)
                :: p.1, p.2)
          | _ => none
        else
          match unescapeChar e with
          | some u => (parseStringBody cs').map fun p => (u :: p.1, p.2)
          | none => none
    else
      (parseStringBody cs).map fun p => (c :: p.1, p.2)

mutual
def parseValue : Nat → List Char → Option (Json × List Char)
  | 0, _ => none
  | fuel + 1, cs =>
    match cs with
    | [] => none
    | c :: rest =>
      if c = '"' then
        (parseStringBody rest).map fun p => (.str (String.mk p.1), p.2)
      else if c = '-' then
        (parseNat rest).map fun p => (.num (-(p.1 : Int)), p.2)
      else if isDigit c then
        (parseNat (c :: rest)).map fun p => (.num (p.1 : Int), p.2)
      else if c = '[' then
        match rest with
        | [] => none
        | r :: rest' =>
          if r = ']' then some (.arr [], rest')
          else (parseElems fuel (r :: rest')).map fun p => (.arr p.1, p.2)
      else if c = '\x7b' then
        match rest with
        | [] => none
        | r :: rest' =>
          if r = '\x7d' then some (.obj [], rest')
          else (parseFields fuel (r :: rest')).map fun p => (.obj p.1, p.2)
      else none

/-- Parse `value (',' value)* ']'` — the elements of a nonempty array. -/
def parseElems : Nat → List Char → Option (List Json × List Char)
  | 0, _ => none
  | fuel + 1, cs =>
    match parseValue fuel cs with
    | none => none
    | some (v, rest) =>
      match rest with
      | [] => none
      | r :: rest' =>
        if r = ',' then (parseElems fuel rest').map fun p => (v :: p.1, p.2)
        else if r = ']' then some ([v], rest')
        else none

/-- Parse `string ':' value (',' string ':' value)* '}'` — the members of a
nonempty object. -/
def parseFields : Nat → List Char → Option (List (String × Json) × List Char)
  | 0, _ => none
  | fuel + 1, cs =>
    match cs with
    | c :: cs' =>
      if c = '"' then
        match parseStringBody cs' with
        | none => none
        | some (k, rest) =>
          match rest with
          | r :: rest' =>
            if r = ':' then
              match parseValue fuel rest' with
              | none => none
              | some (v, rest2) =>
                match rest2 with
                | r2 :: rest3 =>
                  if r2 = ',' then
                    (parseFields fuel rest3).map fun p => ((String.mk k, v) :: p.1, p.2)
                  else if r2 = '\x7d' then some ([(String.mk k, v)], rest3)
                  else none
                | [] => none
            else none
          | [] => none
      else none
    | [] => none
end

/-- Model of `JSON.parse`: a full-input parse of the canonical grammar;
`none` models the `SyntaxError` throw.  The fuel bound `2·length + 1`
dominates the parser's recursion depth on any input it accepts. -/
def jsonParse (s : String) : Option Json :=
  match parseValue (2 * s.data.length + 1) s.data with
  | some (v, []) => some v
  | _ => none

/-- The first character a stringified JSON value can start with. -/
def headShape (c : Char) : Prop :=
  isDigit c = true ∨ c = '"' ∨ c = '-' ∨ c = '[' ∨ c = '\x7b'

/-! ### Error taxonomy (src/src/error.ts) -/
inductive JxaErr where
  | multiLine
  | streamEnded
  | replExecution (errText : String)
  | bufferOverflow (msg : String)
  | notSerializable (msg : String) (originalOutput : String)
  | typeError (msg : String)
  | generic (msg : String)
deriving DecidableEq

/-- The `message` property of each error, from the constructors in error.ts
(`typeError` is the `TypeError` thrown by `unwrap`, `generic` a plain `Error`). -/
def errMessage : JxaErr → String
  | .multiLine => "Multi-line code is not supported"
  | .streamEnded => "Stream ended unexpectedly"
  | .replExecution e => "REPL execution error: " ++ e
  | .bufferOverflow m => m
  | .notSerializable m _ => m
  | .typeError m => m
  | .generic m => m

/-- Membership in the `JXAError` class hierarchy of error.ts: every bridge error
class extends `JXAError`; a bare `Error` or `TypeError` does not. -/
def isJXAError : JxaErr → Bool
  | .typeError _ => false
  | .generic _ => false
  | _ => true

/-! ### UTF-8 byte length: model of `TextEncoder().encode(s).length` -/
/-- UTF-8 byte count of one character. -/
def utf8Size (c : Char) : Nat :=
  if c.toNat < 0x80 then 1
  else if c.toNat < 0x800 then 2
  else if c.toNat < 0x10000 then 3
  else 4

def utf8LenChars (cs : List Char) : Nat := (cs.map utf8Size).sum

/-- Model of `new TextEncoder().encode(s).length`. -/
def utf8Len (s : String) : Nat := utf8LenChars s.data

/-! ### Synchronization bridge, worker side (`self.onmessage` in
src/unnamed/part_000): result/error serialization into the shared buffer -/
def RESULT_BUFFER_SIZE : Nat := 16000

/-- The worker's error serialization (the `catch` block of `self.onmessage`):
an `instanceof` chain for `MultiLineCodeError`, `ReplExecutionError` and
`BufferOverflowError`; every other `Error` — including `StreamEndedError`,
which the chain does not test for — keeps `errorType = "Error"` and
contributes only its message. -/
def serializeError : JxaErr → String × String
  | .multiLine => ("MultiLineCodeError", errMessage .multiLine)
  | .replExecution e => ("ReplExecutionError", errMessage (.replExecution e))
  | .bufferOverflow m => ("BufferOverflowError", m)
  | e => ("Error", errMessage e)

/-- `JSON.stringify({ type: errorType, message: errorMsg })`. -/
def errorWire (e : JxaErr) : String :=
  jsonStringify (.obj [("type", .str (serializeError e).1),
    ("message", .str (serializeError e).2)])

/-- The message of the `BufferOverflowError` thrown when a success result is
too large for the shared buffer. -/
def bufferOverflowMsg (len : Nat) : String :=
  "Message length (" ++ natToString len ++
    (" bytes) exceeds buffer size (" ++ natToString RESULT_BUFFER_SIZE ++ " bytes)")

/-- The fixed capacity-safe fallback payload used when a serialized error would
itself overflow the buffer. -/
def truncatedErrorWire (len : Nat) : String :=
  jsonStringify (.obj [("type", .str "BufferOverflowError"),
    ("message", .str ("Error message length (" ++ natToString len ++
      (" bytes) exceeds buffer size (" ++ natToString RESULT_BUFFER_SIZE ++ " bytes)")))])

/-- What the worker leaves in the shared region for one request: the payload
bytes written before the terminator, and the status word. -/
structure WorkerReply where
  payload : String
  status : Nat
deriving DecidableEq

/-- The `catch` block: serialize the error; if the serialization reaches
capacity, substitute the truncated fallback; set status = 2. -/
def workerRespondErr (e : JxaErr) : WorkerReply :=
  let errorJson := errorWire e
  if RESULT_BUFFER_SIZE ≤ utf8Len errorJson then
    ⟨truncatedErrorWire (utf8Len errorJson), 2⟩
  else ⟨errorJson, 2⟩

/-- The whole `try`/`catch` of `self.onmessage`, given the outcome of the
dispatched session operation: on success write the encoded result
(status = 1) unless it reaches capacity, in which case a
`BufferOverflowError` is thrown and serialized like any other error. -/
def workerRespond : Except JxaErr String → WorkerReply
  | .ok result =>
    if RESULT_BUFFER_SIZE ≤ utf8Len result then
      workerRespondErr (.bufferOverflow (bufferOverflowMsg (utf8Len result)))
    else ⟨result, 1⟩
  | .error e => workerRespondErr e

/-! ### Synchronization bridge, foreground side (`JXASession.#sendMessage` in
src/unnamed/part_001): decode of the shared region -/
def getField : Json → String → Option Json
  | .obj fs, key => fs.lookup key
  | _, _ => none

def getStr (j : Json) (key : String) : Option String :=
  match getField j key with
  | some (.str s) => some s
  | _ => none

/-- Foreground decode of the worker reply: on status 2, `JSON.parse` the
payload (parse failure raises a plain `Error` carrying the raw payload) and
dispatch on `errorData.type`; unrecognized kinds become a plain `Error` with
the message.  JS quirks of a missing `message` field are modelled per the
constructors: template interpolation of `undefined` renders `"undefined"`,
while `new Error(undefined)` has an empty message. -/
def decodeReply (r : WorkerReply) : Except JxaErr String :=
  if r.status = 2 then
    match jsonParse r.payload with
    | none => .error (.generic r.payload)
    | some j =>
      let ty := getStr j "type"
      let msg := getStr j "message"
      if ty = some "MultiLineCodeError" then .error .multiLine
      else if ty = some "ReplExecutionError" then
        .error (.replExecution (msg.getD "undefined"))
      else if ty = some "BufferOverflowError" then
        .error (.bufferOverflow (msg.getD ""))
      else .error (.generic (msg.getD ""))
  else .ok r.payload

/-- How the foreground reconstructs each worker-serialized error kind: the
three kinds in the worker's `instanceof` chain come back as themselves (with
the `ReplExecutionError` message re-prefixed by its constructor); everything
else — `StreamEndedError` included — comes back as a plain `Error` carrying
the serialized message. -/
def reconstructErr : JxaErr → JxaErr
  | .multiLine => .multiLine
  | .replExecution e => .replExecution ("REPL execution error: " ++ e)
  | .bufferOverflow m => .bufferOverflow m
  | e => .generic (errMessage e)

/-! ### The worker's shared-region writes, in program order (`self.onmessage`,
the `finally` block) -/
inductive WAction where
  | writePayload (bytes : String)
  | storeStatus (v : Nat)
  | storeDone
  | notify
deriving DecidableEq

/-- The writes the worker performs on the shared region for one request, in
program order: the `try`/`catch` body writes the payload bytes and then the
status word (`Atomics.store(int32, 1, _)`); the `finally` block then sets the
done flag (`Atomics.store(int32, 0, 1)`) and wakes the waiter
(`Atomics.notify`), on every path. -/
def onmessageActions (outcome : Except JxaErr String) : List WAction :=
  (match workerRespond outcome with
   | ⟨p, st⟩ => [.writePayload p, .storeStatus st]) ++ [.storeDone, .notify]

/-! ### Session and remote-object proxy system (src/unnamed/part_001
`JXASession`, together with its dedicated worker's state from part_000: each
session owns exactly one worker, so one state models the pair).  The external
interpreter is modelled by the spec's collaborator contract: a bound JSON
literal evaluates to its value and is echoed back in canonical JSON form; any
other expression yields an opaque value echoed as its non-JSON textual
form. -/
/-- The remote value a `const $N = <expr>` binding holds. -/
inductive RVal where
  | json (v : Json)
  | opaqueVal (src : String)

structure Session where
  /-- Identity of the session object (`handle[sessionSymbol] === this`
  comparisons become comparisons of this identifier). -/
  sid : Nat
  /-- `#varCounter` of the worker. -/
  counter : Nat
  /-- Every statement fed to the worker's `execute`, oldest first (the
  session's observable effect on the child interpreter). -/
  executed : List String
  /-- The remote `const` bindings, newest first. -/
  env : List (String × RVal)

/-- A Handle's three symbol-keyed internal fields. -/
structure Handle where
  sid : Nat
  varName : String
  thisContext : Option String
deriving DecidableEq

/-- A value in the foreground: an existing handle, a JSON-representable
value, or a host function carrying its source text. -/
inductive Val where
  | handle (h : Handle)
  | json (v : Json)
  | fn (src : String)

/-- `owns`: `x` is a function carrying the session symbol of this session.
Handles are the only values carrying a session symbol; JSON values and bare
functions are never owned. -/
def Session.owns (s : Session) (v : Val) : Bool :=
  match v with
  | .handle h => h.sid = s.sid
  | _ => false

/-- Model of the remote evaluation of a bound expression (collaborator
contract): a canonical JSON text evaluates to its value, anything else to an
opaque value remembered by its source text. -/
def evalRemote (expression : String) : RVal :=
  match jsonParse expression with
  | some v => .json v
  | none => .opaqueVal expression

/-- `createVar(expr)` (worker): mint `` `$${varCounter++}` ``, execute
`const $N = <expr>`, return the name.  The execution both logs the statement
and creates the remote binding. -/
def Session.createVar (s : Session) (expression : String) : String × Session :=
  let varName := "$" ++ natToString s.counter
  (varName,
    { s with
      counter := s.counter + 1
      executed := s.executed ++ ["const " ++ varName ++ " = " ++ expression]
      env := (varName, evalRemote expression) :: s.env })

/-- The interpreter's echo for a bare-variable submission, under the spec's
canonical-form assumption: a JSON binding echoes its canonical JSON text, an
opaque binding its non-JSON textual form. -/
def remoteEcho (s : Session) (code : String) : String :=
  match s.env.lookup code with
  | some (.json v) => jsonStringify v
  | some (.opaqueVal src) => src
  | none => "undefined"

/-- `unsafeExecute(code)`: submit one statement, return the echoed result. -/
def Session.unsafeExecute (s : Session) (code : String) : String × Session :=
  (remoteEcho s code, { s with executed := s.executed ++ [code] })

/-- `#handle(varName)`: a fresh handle of this session with no this-context. -/
def Session.handleFor (s : Session) (varName : String) : Handle :=
  ⟨s.sid, varName, none⟩

/-- `wrap(value)`: an owned handle is returned unchanged; a function is bound
from its parenthesized source text; everything else is bound from its JSON
encoding.  A handle of a *different* session is a proxied function that
`owns` rejects, so the code takes the `typeof value === "function"` branch
and interpolates `value.toString()` into a template literal — but every
property read and call on such a proxy is intercepted by its traps and yields
another proxy (an object, never a primitive), so the string conversion
deterministically throws `TypeError: Cannot convert object to primitive
value` before `#createVar` is ever reached: nothing is submitted through this
session's bridge and its state is unchanged.  (The trap traffic this
conversion attempt generates travels through the *foreign* session's bridge,
outside this one-session state.) -/
def Session.wrap (s : Session) (value : Val) : Except JxaErr (Handle × Session) :=
  match value with
  | .handle h =>
    if h.sid = s.sid then .ok (h, s)
    else .error (.typeError "Cannot convert object to primitive value")
  | .fn src =>
    let p := s.createVar ("(" ++ src ++ ")")
    .ok (s.handleFor p.1, p.2)
  | .json v =>
    let p := s.createVar (jsonStringify v)
    .ok (s.handleFor p.1, p.2)

/-- `unwrap(handle)`: ownership precondition (violation is a `TypeError`,
raised before anything is sent to the bridge), then evaluate the bare variable
name and `JSON.parse` the echoed text; a parse failure is a
`NotSerializableError` carrying the raw output. -/
def Session.unwrap (s : Session) (h : Handle) : Except JxaErr Json × Session :=
  if !s.owns (.handle h) then
    (.error (.typeError "Handle does not belong to this session"), s)
  else
    let p := s.unsafeExecute h.varName
    match jsonParse p.1 with
    | some v => (.ok v, p.2)
    | none => (.error (.notSerializable "Value is not JSON serializable" p.1), p.2)

/-- A proxy property key: one of the three internal symbols, or a string. -/
inductive SymKey where
  | session
  | varName
  | thisContext
deriving DecidableEq

inductive PropKey where
  | symbolKey (k : SymKey)
  | stringKey (k : String)
deriving DecidableEq

/-- The stored internal field a symbol-keyed read returns. -/
inductive SymVal where
  | sessionRef (sid : Nat)
  | varNameVal (v : String)
  | thisContextVal (v : Option String)
deriving DecidableEq

def Handle.symField (h : Handle) : SymKey → SymVal
  | .session => .sessionRef h.sid
  | .varName => .varNameVal h.varName
  | .thisContext => .thisContextVal h.thisContext

inductive GetResult where
  | symVal (v : SymVal)
  | handleRes (h : Handle)
deriving DecidableEq

/-- `proxyHandler.get`: a symbol key returns the stored field; a string key
composes `Reflect.get(<var>, <json(key)>)`, binds it, and returns a new handle
whose this-context is the read receiver. -/
def proxyGet (s : Session) (target : Handle) (prop : PropKey) : GetResult × Session :=
  match prop with
  | .symbolKey k => (.symVal (target.symField k), s)
  | .stringKey key =>
    let p := s.createVar ("Reflect.get(" ++ target.varName ++ ", " ++
      jsonStringify (.str key) ++ ")")
    (.handleRes ⟨s.sid, p.1, some target.varName⟩, p.2)

/-- One invocation argument's encoding: an owned handle passes by reference as
its variable name; otherwise `JSON.stringify(arg)` — which on a function (a
foreign handle or a bare function) is `undefined`, rendered as the empty
string by `Array.prototype.join`. -/
def argString (s : Session) (arg : Val) : String :=
  if s.owns arg then
    match arg with
    | .handle h => h.varName
    | _ => ""
  else
    match arg with
    | .json v => jsonStringify v
    | _ => ""

def joinComma : List String → String
  | [] => ""
  | [x] => x
  | x :: y :: xs => x ++ ", " ++ joinComma (y :: xs)

/-- `proxyHandler.apply`: encode the arguments, compose
`Reflect.apply(<fn var>, <this-context or "undefined">, [<args>])`, bind it
with `createVar`, and return the minted name as a fresh handle. -/
def proxyApply (s : Session) (target : Handle) (args : List Val) : Handle × Session :=
  let argStrings := args.map (argString s)
  let thisArg := target.thisContext.getD "undefined"
  let callExpr := "Reflect.apply(" ++ target.varName ++ ", " ++ thisArg ++ ", [" ++
    joinComma argStrings ++ "])"
  let p := s.createVar callExpr
  (s.handleFor p.1, p.2)

/-- `proxyHandler.set`: a symbol key is rejected (`false`); a string key wraps
the value and executes `Reflect.set(<var>, <json(key)>, <value var>)`,
interpreting the literal echo `"true"` as the boolean outcome.  When `wrap`
throws (a foreign-session handle value), the exception propagates out of the
trap before anything is submitted through this session's bridge. -/
def proxySet (s : Session) (target : Handle) (prop : PropKey) (value : Val) :
    Except JxaErr Bool × Session :=
  match prop with
  | .symbolKey _ => (.ok false, s)
  | .stringKey key =>
    match s.wrap value with
    | .error e => (.error e, s)
    | .ok (vh, s1) =>
      let r := s1.unsafeExecute ("Reflect.set(" ++ target.varName ++ ", " ++
        jsonStringify (.str key) ++ ", " ++ vh.varName ++ ")")
      (.ok (r.1 == "true"), r.2)

/-- A fresh session: counter 0, nothing executed, no bindings. -/
def sessionInit (sid : Nat) : Session := ⟨sid, 0, [], []⟩

/-- The names returned by a sequence of `createVar` calls. -/
def createVarRun (s : Session) : List String → List String
  | [] => []
  | e :: es =>
    let p := s.createVar e
    p.1 :: createVarRun p.2 es

/-- The session state after a sequence of `createVar` calls. -/
def createVarRunState (s : Session) : List String → Session
  | [] => s
  | e :: es => createVarRunState (s.createVar e).2 es

/-! ### Theorems -/

theorem digitVal_digitChar : ∀ r < 10, digitVal (digitChar r) = r := by decide

theorem isDigit_digitChar : ∀ r < 10, isDigit (digitChar r) = true := by decide

theorem natDigitsAux_all_digits :
    ∀ fuel n c, c ∈ natDigitsAux fuel n → isDigit c = true := by
  intro fuel
  induction fuel with
  | zero => intro n c hc; cases n <;> simp [natDigitsAux] at hc
  | succ f ih =>
    intro n c hc
    cases n with
    | zero => simp [natDigitsAux] at hc
    | succ m =>
      simp only [natDigitsAux, List.mem_cons] at hc
      rcases hc with h | h
      · subst h; exact isDigit_digitChar _ (Nat.mod_lt _ (by omega))
      · exact ih _ _ h

theorem foldl_natDigitsAux :
    ∀ n fuel, n ≤ fuel → ∀ a,
      List.foldl (fun a c => 10 * a + digitVal c) a (natDigitsAux fuel n).reverse =
        a * 10 ^ (natDigitsAux fuel n).length + n := by
  intro n
  induction n using Nat.strong_induction_on with
  | _ n ih =>
    intro fuel hle a
    match n, fuel with
    | 0, fuel => cases fuel <;> simp [natDigitsAux]
    | m + 1, 0 => omega
    | m + 1, f + 1 =>
      have hq : (m + 1) / 10 < m + 1 := Nat.div_lt_self (by omega) (by omega)
      have hqf : (m + 1) / 10 ≤ f := by
        have := Nat.div_le_self (m + 1) 10
        omega
      simp only [natDigitsAux, List.reverse_cons, List.foldl_append, List.foldl_cons,
        List.foldl_nil, List.length_cons]
      rw [ih _ hq f hqf a]
      rw [digitVal_digitChar _ (Nat.mod_lt _ (by omega))]
      have := Nat.div_add_mod (m + 1) 10
      ring_nf
      omega

theorem charsToNat_natToChars (n : Nat) : charsToNat (natToChars n) = n := by
  by_cases h : n = 0
  · subst h; decide
  · unfold natToChars charsToNat
    rw [if_neg h]
    simpa using foldl_natDigitsAux n n (Nat.le_refl n) 0

theorem natToChars_injective : Function.Injective natToChars := by
  intro a b hab
  have : charsToNat (natToChars a) = charsToNat (natToChars b) := by rw [hab]
  rwa [charsToNat_natToChars, charsToNat_natToChars] at this

theorem natToChars_ne_nil (n : Nat) : natToChars n ≠ [] := by
  unfold natToChars
  by_cases h : n = 0
  · simp [h]
  · rw [if_neg h]
    match n, h with
    | m + 1, _ =>
      simp [natDigitsAux]

theorem natToChars_all_digits (n : Nat) : ∀ c ∈ natToChars n, isDigit c = true := by
  intro c hc
  unfold natToChars at hc
  by_cases h : n = 0
  · simp [h] at hc; subst hc; decide
  · rw [if_neg h, List.mem_reverse] at hc
    exact natDigitsAux_all_digits n n c hc

theorem natDigitsAux_length_le :
    ∀ k fuel n, n < 10 ^ k → (natDigitsAux fuel n).length ≤ k := by
  intro k
  induction k with
  | zero =>
    intro fuel n hn
    interval_cases n
    cases fuel <;> simp [natDigitsAux]
  | succ j ih =>
    intro fuel n hn
    match fuel, n with
    | fuel, 0 => cases fuel <;> simp [natDigitsAux]
    | 0, m + 1 => simp [natDigitsAux]
    | f + 1, m + 1 =>
      simp only [natDigitsAux, List.length_cons]
      have hdiv : (m + 1) / 10 < 10 ^ j := by
        rw [Nat.div_lt_iff_lt_mul (by omega)]
        calc m + 1 < 10 ^ (j + 1) := hn
        _ = 10 ^ j * 10 := by ring
      have := ih f ((m + 1) / 10) hdiv
      omega

theorem natToChars_length_le {k n : Nat} (hk : 1 ≤ k) (hn : n < 10 ^ k) :
    (natToChars n).length ≤ k := by
  unfold natToChars
  by_cases h : n = 0
  · simp [h]; omega
  · rw [if_neg h, List.length_reverse]
    exact natDigitsAux_length_le k n n hn

theorem takeDigits_append {ds rest : List Char}
    (hds : ∀ c ∈ ds, isDigit c = true) (hrest : noLeadingDigit rest) :
    takeDigits (ds ++ rest) = (ds, rest) := by
  induction ds with
  | nil =>
    cases rest with
    | nil => rfl
    | cons c cs =>
      simp only [List.nil_append, takeDigits]
      rw [if_neg (by simp [noLeadingDigit] at hrest; simp [hrest])]
  | cons d ds ih =>
    simp only [List.cons_append, takeDigits]
    rw [if_pos (hds d (by simp))]
    simp only [List.append_eq]
    rw [ih (fun c hc => hds c (by simp [hc]))]

theorem parseNat_natToChars (n : Nat) {rest : List Char} (hrest : noLeadingDigit rest) :
    parseNat (natToChars n ++ rest) = some (n, rest) := by
  unfold parseNat
  rw [takeDigits_append (natToChars_all_digits n) hrest]
  simp [natToChars_ne_nil n, charsToNat_natToChars]

theorem readLoop_haveResult (lines : List String) :
    ∀ c e, readLoop (some c) e lines = specMachine (.haveResult c e) lines := by
  induction lines with
  | nil => intro c e; rfl
  | cons line rest ih =>
    intro c e
    simp only [readLoop, specMachine, Option.isNone_some, Bool.false_and, Bool.and_self,
      if_false, Option.isSome_some, Bool.and_true, Option.getD_some]
    by_cases h1 : jsStartsWith line "=> " = true
    · simp [h1, ih]
    · by_cases h2 : jsStartsWith line "!! " = true
      · simp [h1, h2, ih]
      · by_cases h3 : jsStartsWith line ">> " = true
        · simp [h1, h2, h3]
        · simp [h1, h2, h3, ih]

theorem readLoop_awaiting (lines : List String) :
    readLoop none false lines = specMachine .awaitingResult lines := by
  induction lines with
  | nil => rfl
  | cons line rest ih =>
    simp only [readLoop, specMachine, Option.isNone_none, Bool.true_and, Option.isSome_none,
      Bool.and_false, if_false]
    by_cases h3 : jsStartsWith line ">> " = true
    · simp [h3, ih]
    · by_cases h1 : jsStartsWith line "=> " = true
      · simp [h1, h3, readLoop_haveResult]
      · by_cases h2 : jsStartsWith line "!! " = true
        · simp [h1, h2, h3, readLoop_haveResult]
        · simp [h1, h2, h3, ih]

theorem readLoop_ne_multiLine :
    ∀ lines result isError, readLoop result isError lines ≠ .multiLine := by
  intro lines
  induction lines with
  | nil => intro r e; simp [readLoop]
  | cons line rest ih =>
    intro r e
    simp only [readLoop]
    split
    · exact ih _ _
    · split
      · exact ih _ _
      · split
        · split <;> exact ih _ _
        · split
          · split <;> exact ih _ _
          · split
            · split <;> simp
            · split <;> exact ih _ _

/-- C1: for every single-line submission and every sequence of interpreter
output lines, `execute` follows the two-state parsing machine of the spec:
while no result is captured, `>> ` lines and non-marker lines are skipped and
the first `=> `/`!! ` line captures its remainder after the 3-character marker;
after capture, further `=> `/`!! ` lines are skipped, other lines are appended
prefixed by a newline, and the first `>> ` line ends the call with the captured
text as the success result or as the `ReplExecutionError` payload. -/
theorem execute_follows_spec_machine (code : String) (lines : List String)
    (h : hasChar (jsTrim code) '\n' = false) :
    (execute code lines).1 = specMachine .awaitingResult lines := by
  simp [execute, h, readLoop_awaiting]

theorem execute_follows_spec_machine_witness :
    hasChar (jsTrim " 1 + 1 ") '\n' = false ∧
      (execute " 1 + 1 " [">> 1 + 1", "log chatter", "=> 2", "=> undefined", ">> "]).1 =
        specMachine .awaitingResult [">> 1 + 1", "log chatter", "=> 2", "=> undefined", ">> "] :=
  ⟨by decide, execute_follows_spec_machine " 1 + 1 " _ (by decide)⟩

/-- C3: `execute(code)` fails with `MultiLineCodeError` exactly when `trim(code)`
contains a newline; in that case nothing is written to the child's stdin, and
otherwise exactly `trim(code) + "\n\n"` is written. -/
theorem execute_multiline_guard_and_write (code : String) (lines : List String) :
    ((execute code lines).1 = .multiLine ↔ hasChar (jsTrim code) '\n' = true) ∧
      (execute code lines).2 =
        (if hasChar (jsTrim code) '\n' = true then [] else [jsTrim code ++ "\n\n"]) := by
  by_cases h : hasChar (jsTrim code) '\n' = true
  · simp [execute, h]
  · simp only [Bool.not_eq_true] at h
    simp [execute, h, readLoop_ne_multiLine]

/-! ### Round-trip of the JSON model: `jsonParse (jsonStringify v) = some v` -/
theorem hexVal_hexDigitChar : ∀ d < 16, hexVal (hexDigitChar d) = d := by decide

theorem parseStringBody_quote (tail : List Char) :
    parseStringBody ('"' :: tail) = some ([], tail) := by
  rw [parseStringBody.eq_def]
  simp

theorem parseStringBody_escape (e u : Char) (tail : List Char)
    (hu : e ≠ 'u') (hc : unescapeChar e = some u) :
    parseStringBody ('\\' :: e :: tail) =
      (parseStringBody tail).map fun p => (u :: p.1, p.2) := by
  rw [parseStringBody.eq_def]
  simp [hu, hc]

theorem parseStringBody_unicode (h1 h2 h3 h4 : Char) (tail : List Char) :
    parseStringBody ('\\' :: 'u' :: h1 :: h2 :: h3 :: h4 :: tail) =
      (parseStringBody tail).map fun p =>
        (Char.ofNat (((hexVal h1 * 16 + hexVal h2) * 16 + hexVal h3) * 16 + hexVal h4)
          :: p.1, p.2) := by
  rw [parseStringBody.eq_def]
  simp

theorem parseStringBody_verbatim (c : Char) (tail : List Char)
    (hq : c ≠ '"') (hb : c ≠ '\\') :
    parseStringBody (c :: tail) = (parseStringBody tail).map fun p => (c :: p.1, p.2) := by
  rw [parseStringBody.eq_def]
  simp [hq, hb]

theorem parseStringBody_encodeChars (cs : List Char) :
    ∀ rest, parseStringBody (encodeChars cs ++ '"' :: rest) = some (cs, rest) := by
  induction cs with
  | nil =>
    intro rest
    rw [encodeChars.eq_def]
    exact parseStringBody_quote rest
  | cons c cs ih =>
    intro rest
    rw [encodeChars.eq_def]
    simp only [List.append_assoc, List.append_eq]
    have key : ∀ e : Char, e ≠ 'u' → unescapeChar e = some c → encodeChar c = ['\\', e] →
        parseStringBody (encodeChar c ++ (encodeChars cs ++ '"' :: rest)) =
          some (c :: cs, rest) := by
      intro e hu hc hcode
      rw [hcode, List.cons_append, List.cons_append, List.nil_append,
        parseStringBody_escape e c _ hu hc, ih rest]
      rfl
    by_cases hq : c = '"'
    · subst hq; exact key '"' (by decide) rfl rfl
    · by_cases hb : c = '\\'
      · subst hb; exact key '\\' (by decide) rfl rfl
      · by_cases h08 : c = '\x08'
        · subst h08; exact key 'b' (by decide) rfl rfl
        · by_cases h09 : c = '\x09'
          · subst h09; exact key 't' (by decide) rfl rfl
          · by_cases h0a : c = '\x0a'
            · subst h0a; exact key 'n' (by decide) rfl rfl
            · by_cases h0c : c = '\x0c'
              · subst h0c; exact key 'f' (by decide) rfl rfl
              · by_cases h0d : c = '\x0d'
                · subst h0d; exact key 'r' (by decide) rfl rfl
                · by_cases hctl : c.toNat < 32
                  · have henc : encodeChar c =
                        ['\\', 'u', '0', '0', hexDigitChar (c.toNat / 16),
                          hexDigitChar (c.toNat % 16)] := by
                      simp only [encodeChar, if_neg hq, if_neg hb, if_neg h08,
                        if_neg h09, if_neg h0a, if_neg h0c, if_neg h0d, if_pos hctl]
                    rw [henc]
                    simp only [List.cons_append, List.nil_append]
                    rw [parseStringBody_unicode, ih rest]
                    have hdiv : c.toNat / 16 < 16 := by omega
                    have hmod : c.toNat % 16 < 16 := Nat.mod_lt _ (by omega)
                    simp only [Option.map_some']
                    rw [hexVal_hexDigitChar _ hdiv, hexVal_hexDigitChar _ hmod]
                    have hv : hexVal '0' = 0 := rfl
                    rw [hv]
                    have hchar : ((0 * 16 + 0) * 16 + c.toNat / 16) * 16 + c.toNat % 16 =
                        c.toNat := by omega
                    rw [hchar, Char.ofNat_toNat]
                  · have henc : encodeChar c = [c] := by
                      simp only [encodeChar, if_neg hq, if_neg hb, if_neg h08,
                        if_neg h09, if_neg h0a, if_neg h0c, if_neg h0d, if_neg hctl]
                    rw [henc, List.cons_append, List.nil_append,
                      parseStringBody_verbatim c _ hq hb, ih rest]
                    rfl

theorem stringMkData (s : String) : String.mk s.data = s := by
  obtain ⟨d⟩ := s
  rfl

theorem isDigit_ne_quote {c : Char} (h : isDigit c = true) : c ≠ '"' := by
  rintro rfl; exact absurd h (by decide)

theorem isDigit_ne_minus {c : Char} (h : isDigit c = true) : c ≠ '-' := by
  rintro rfl; exact absurd h (by decide)

theorem headShape_ne_close {c : Char} (h : headShape c) : c ≠ ']' ∧ c ≠ '\x7d' := by
  rcases h with h | h | h | h | h
  · exact ⟨fun hc => by subst hc; exact absurd h (by decide),
      fun hc => by subst hc; exact absurd h (by decide)⟩
  all_goals subst h; exact ⟨by decide, by decide⟩

theorem stringifyChars_num (n : Int) : stringifyChars (.num n) = intToChars n := by
  rw [stringifyChars.eq_def]

theorem stringifyChars_str (s : String) : stringifyChars (.str s) = encodeStringChars s := by
  rw [stringifyChars.eq_def]

theorem stringifyChars_arr (es : List Json) :
    stringifyChars (.arr es) = '[' :: (stringifyElems es ++ [']']) := by
  rw [stringifyChars.eq_def]

theorem stringifyChars_obj (fs : List (String × Json)) :
    stringifyChars (.obj fs) = '\x7b' :: (stringifyFields fs ++ ['\x7d']) := by
  rw [stringifyChars.eq_def]

theorem stringifyElems_nil : stringifyElems [] = [] := by
  rw [stringifyElems.eq_def]

theorem stringifyElems_one (v : Json) : stringifyElems [v] = stringifyChars v := by
  rw [stringifyElems.eq_def]

theorem stringifyElems_cons (v w : Json) (vs : List Json) :
    stringifyElems (v :: w :: vs) = stringifyChars v ++ ',' :: stringifyElems (w :: vs) := by
  rw [stringifyElems.eq_def]

theorem stringifyFields_nil : stringifyFields [] = [] := by
  rw [stringifyFields.eq_def]

theorem stringifyFields_one (k : String) (v : Json) :
    stringifyFields [(k, v)] = encodeStringChars k ++ ':' :: stringifyChars v := by
  rw [stringifyFields.eq_def]

theorem stringifyFields_cons (k : String) (v : Json) (f : String × Json)
    (fs : List (String × Json)) :
    stringifyFields ((k, v) :: f :: fs) =
      encodeStringChars k ++ ':' :: stringifyChars v ++ ',' :: stringifyFields (f :: fs) := by
  rw [stringifyFields.eq_def]

theorem stringifyChars_head (v : Json) :
    ∃ c t, stringifyChars v = c :: t ∧ headShape c := by
  cases v with
  | num n =>
    rw [stringifyChars_num]
    by_cases hneg : n < 0
    · exact ⟨'-', natToChars n.natAbs, by simp [intToChars, hneg], Or.inr (Or.inr (Or.inl rfl))⟩
    · cases hnc : natToChars n.natAbs with
      | nil => exact absurd hnc (natToChars_ne_nil _)
      | cons c t =>
        refine ⟨c, t, by simp [intToChars, hneg, hnc], Or.inl ?_⟩
        exact natToChars_all_digits n.natAbs c (by rw [hnc]; exact List.mem_cons_self c t)
  | str s =>
    exact ⟨'"', encodeChars s.data ++ ['"'], by rw [stringifyChars_str]; rfl, Or.inr (Or.inl rfl)⟩
  | arr es =>
    exact ⟨'[', stringifyElems es ++ [']'], stringifyChars_arr es,
      Or.inr (Or.inr (Or.inr (Or.inl rfl)))⟩
  | obj fs =>
    exact ⟨'\x7b', stringifyFields fs ++ ['\x7d'], stringifyChars_obj fs,
      Or.inr (Or.inr (Or.inr (Or.inr rfl)))⟩

theorem stringifyChars_length_pos (v : Json) : 1 ≤ (stringifyChars v).length := by
  obtain ⟨c, t, heq, -⟩ := stringifyChars_head v
  rw [heq]
  simp

theorem stringifyElems_head (e : Json) (es : List Json) :
    ∃ c t, stringifyElems (e :: es) = c :: t ∧ headShape c := by
  obtain ⟨c, t, heq, hs⟩ := stringifyChars_head e
  cases es with
  | nil => exact ⟨c, t, by rw [stringifyElems_one, heq], hs⟩
  | cons e2 es' =>
    exact ⟨c, t ++ ',' :: stringifyElems (e2 :: es'),
      by rw [stringifyElems_cons, heq]; rfl, hs⟩

theorem parseValue_quote (f : Nat) (tail : List Char) :
    parseValue (f + 1) ('"' :: tail) =
      (parseStringBody tail).map fun p => (Json.str (String.mk p.1), p.2) := by
  rw [parseValue.eq_def]
  simp

theorem parseValue_minus (f : Nat) (tail : List Char) :
    parseValue (f + 1) ('-' :: tail) =
      (parseNat tail).map fun p => (Json.num (-(p.1 : Int)), p.2) := by
  rw [parseValue.eq_def]
  simp

theorem parseValue_digit (f : Nat) {c : Char} (tail : List Char) (h : isDigit c = true) :
    parseValue (f + 1) (c :: tail) =
      (parseNat (c :: tail)).map fun p => (Json.num (p.1 : Int), p.2) := by
  rw [parseValue.eq_def]
  simp [isDigit_ne_quote h, isDigit_ne_minus h, h]

theorem parseValue_arrNil (f : Nat) (tail : List Char) :
    parseValue (f + 1) ('[' :: ']' :: tail) = some (.arr [], tail) := by
  rw [parseValue.eq_def]
  simp [show isDigit '[' = false from by decide]

theorem parseValue_arrCons (f : Nat) {r : Char} (tail : List Char) (h : r ≠ ']') :
    parseValue (f + 1) ('[' :: r :: tail) =
      (parseElems f (r :: tail)).map fun p => (.arr p.1, p.2) := by
  rw [parseValue.eq_def]
  simp [show isDigit '[' = false from by decide, h]

theorem parseValue_objNil (f : Nat) (tail : List Char) :
    parseValue (f + 1) ('\x7b' :: '\x7d' :: tail) = some (.obj [], tail) := by
  rw [parseValue.eq_def]
  simp [show isDigit '\x7b' = false from by decide]

theorem parseValue_objCons (f : Nat) {r : Char} (tail : List Char) (h : r ≠ '\x7d') :
    parseValue (f + 1) ('\x7b' :: r :: tail) =
      (parseFields f (r :: tail)).map fun p => (.obj p.1, p.2) := by
  rw [parseValue.eq_def]
  simp [show isDigit '\x7b' = false from by decide, h]

theorem parseElems_comma (f : Nat) {cs rest' : List Char} {v : Json}
    (h : parseValue f cs = some (v, ',' :: rest')) :
    parseElems (f + 1) cs = (parseElems f rest').map fun p => (v :: p.1, p.2) := by
  rw [parseElems.eq_def]
  simp [h]

theorem parseElems_close (f : Nat) {cs rest' : List Char} {v : Json}
    (h : parseValue f cs = some (v, ']' :: rest')) :
    parseElems (f + 1) cs = some ([v], rest') := by
  rw [parseElems.eq_def]
  simp [h]

theorem parseFields_comma (f : Nat) {cs' r1 rest' : List Char} {k : List Char} {v : Json}
    (hk : parseStringBody cs' = some (k, ':' :: r1))
    (hv : parseValue f r1 = some (v, ',' :: rest')) :
    parseFields (f + 1) ('"' :: cs') =
      (parseFields f rest').map fun p => ((String.mk k, v) :: p.1, p.2) := by
  rw [parseFields.eq_def]
  simp [hk, hv]

theorem parseFields_close (f : Nat) {cs' r1 rest' : List Char} {k : List Char} {v : Json}
    (hk : parseStringBody cs' = some (k, ':' :: r1))
    (hv : parseValue f r1 = some (v, '\x7d' :: rest')) :
    parseFields (f + 1) ('"' :: cs') = some ([(String.mk k, v)], rest') := by
  rw [parseFields.eq_def]
  simp [hk, hv]

theorem noLeadingDigit_cons {c : Char} (rest : List Char) (h : isDigit c = false) :
    noLeadingDigit (c :: rest) := h

mutual

theorem parseValue_stringify (v : Json) :
    ∀ fuel rest, 2 * (stringifyChars v).length + 2 * rest.length + 1 ≤ fuel →
      noLeadingDigit rest →
      parseValue fuel (stringifyChars v ++ rest) = some (v, rest) := by
  cases v with
  | num n =>
    intro fuel rest hbound hrest
    cases fuel with
    | zero => omega
    | succ f =>
      rw [stringifyChars_num]
      by_cases hneg : n < 0
      · rw [show intToChars n = '-' :: natToChars n.natAbs from by simp [intToChars, hneg],
          List.cons_append, parseValue_minus, parseNat_natToChars _ hrest]
        simp only [Option.map_some']
        have hn : -((n.natAbs : Nat) : Int) = n := by omega
        rw [hn]
      · obtain ⟨c, t, hct⟩ : ∃ c t, natToChars n.natAbs = c :: t := by
          cases hnc : natToChars n.natAbs with
          | nil => exact absurd hnc (natToChars_ne_nil _)
          | cons c t => exact ⟨c, t, rfl⟩
        have hdig : isDigit c = true :=
          natToChars_all_digits _ c (by rw [hct]; exact List.mem_cons_self _ _)
        rw [show intToChars n = natToChars n.natAbs from by simp [intToChars, hneg], hct,
          List.cons_append, parseValue_digit f _ hdig, ← List.cons_append, ← hct,
          parseNat_natToChars _ hrest]
        simp only [Option.map_some']
        have hn : ((n.natAbs : Nat) : Int) = n := by omega
        rw [hn]
  | str s =>
    intro fuel rest hbound hrest
    cases fuel with
    | zero => omega
    | succ f =>
      rw [stringifyChars_str,
        show encodeStringChars s ++ rest = '"' :: (encodeChars s.data ++ '"' :: rest) from by
          simp [encodeStringChars],
        parseValue_quote, parseStringBody_encodeChars]
      simp [stringMkData]
  | arr es =>
    intro fuel rest hbound hrest
    cases fuel with
    | zero => omega
    | succ f =>
      cases es with
      | nil =>
        rw [stringifyChars_arr, stringifyElems_nil,
          show ('[' :: (([] : List Char) ++ [']'])) ++ rest = '[' :: ']' :: rest from rfl]
        exact parseValue_arrNil f rest
      | cons e es' =>
        obtain ⟨c0, t0, heq, hs⟩ := stringifyElems_head e es'
        have hlen : (stringifyChars (Json.arr (e :: es'))).length =
            (stringifyElems (e :: es')).length + 2 := by
          rw [stringifyChars_arr]
          simp
        rw [stringifyChars_arr, heq,
          show ('[' :: ((c0 :: t0) ++ [']'])) ++ rest = '[' :: c0 :: (t0 ++ ']' :: rest) from by
            simp,
          parseValue_arrCons f _ (headShape_ne_close hs).1,
          show c0 :: (t0 ++ ']' :: rest) = (c0 :: t0) ++ ']' :: rest from rfl, ← heq,
          parseElems_stringify (e :: es') f rest (by simp) (by rw [hlen] at hbound; omega)]
        rfl
  | obj fs =>
    intro fuel rest hbound hrest
    cases fuel with
    | zero => omega
    | succ f =>
      cases fs with
      | nil =>
        rw [stringifyChars_obj, stringifyFields_nil,
          show ('\x7b' :: (([] : List Char) ++ ['\x7d'])) ++ rest =
            '\x7b' :: '\x7d' :: rest from rfl]
        exact parseValue_objNil f rest
      | cons kv fs' =>
        obtain ⟨k, v⟩ := kv
        have hlen : (stringifyChars (Json.obj ((k, v) :: fs'))).length =
            (stringifyFields ((k, v) :: fs')).length + 2 := by
          rw [stringifyChars_obj]
          simp
        obtain ⟨t0, heq⟩ : ∃ t0, stringifyFields ((k, v) :: fs') = '"' :: t0 := by
          cases fs' with
          | nil =>
            exact ⟨encodeChars k.data ++ ['"'] ++ ':' :: stringifyChars v, by
              rw [stringifyFields_one]
              simp [encodeStringChars]⟩
          | cons f2 fs'' =>
            exact ⟨encodeChars k.data ++ ['"'] ++
              ':' :: stringifyChars v ++ ',' :: stringifyFields (f2 :: fs''), by
              rw [stringifyFields_cons]
              simp [encodeStringChars]⟩
        rw [stringifyChars_obj, heq,
          show ('\x7b' :: (('"' :: t0) ++ ['\x7d'])) ++ rest =
            '\x7b' :: '"' :: (t0 ++ '\x7d' :: rest) from by simp,
          parseValue_objCons f _ (by decide),
          show '"' :: (t0 ++ '\x7d' :: rest) = ('"' :: t0) ++ '\x7d' :: rest from rfl, ← heq,
          parseFields_stringify ((k, v) :: fs') f rest (by simp)
            (by rw [hlen] at hbound; omega)]
        rfl

theorem parseElems_stringify (es : List Json) :
    ∀ fuel rest, es ≠ [] → 2 * (stringifyElems es).length + 2 * rest.length + 4 ≤ fuel →
      parseElems fuel (stringifyElems es ++ ']' :: rest) = some (es, rest) := by
  cases es with
  | nil => intro fuel rest hne; exact absurd rfl hne
  | cons e es' =>
    intro fuel rest _ hbound
    cases fuel with
    | zero => omega
    | succ f =>
      cases es' with
      | nil =>
        rw [stringifyElems_one] at hbound ⊢
        have hsub : parseValue f (stringifyChars e ++ ']' :: rest) = some (e, ']' :: rest) :=
          parseValue_stringify e f (']' :: rest)
            (by simp only [List.length_cons]; omega) (noLeadingDigit_cons _ (by decide))
        exact parseElems_close f hsub
      | cons e2 es'' =>
        have hpos := stringifyChars_length_pos e
        rw [stringifyElems_cons] at hbound ⊢
        have hblen : (stringifyChars e ++ ',' :: stringifyElems (e2 :: es'')).length =
            (stringifyChars e).length + (stringifyElems (e2 :: es'')).length + 1 := by
          simp only [List.length_append, List.length_cons]
          omega
        rw [show (stringifyChars e ++ ',' :: stringifyElems (e2 :: es'')) ++ ']' :: rest =
            stringifyChars e ++ ',' :: (stringifyElems (e2 :: es'') ++ ']' :: rest) from by
          simp]
        have hsub : parseValue f
            (stringifyChars e ++ ',' :: (stringifyElems (e2 :: es'') ++ ']' :: rest)) =
            some (e, ',' :: (stringifyElems (e2 :: es'') ++ ']' :: rest)) :=
          parseValue_stringify e f _
            (by simp only [List.length_cons, List.length_append]
                rw [hblen] at hbound; omega)
            (noLeadingDigit_cons _ (by decide))
        rw [parseElems_comma f hsub,
          parseElems_stringify (e2 :: es'') f rest (by simp)
            (by rw [hblen] at hbound; omega)]
        rfl

theorem parseFields_stringify (fs : List (String × Json)) :
    ∀ fuel rest, fs ≠ [] → 2 * (stringifyFields fs).length + 2 * rest.length + 4 ≤ fuel →
      parseFields fuel (stringifyFields fs ++ '\x7d' :: rest) = some (fs, rest) := by
  cases fs with
  | nil => intro fuel rest hne; exact absurd rfl hne
  | cons kv fs' =>
    obtain ⟨k, v⟩ := kv
    intro fuel rest _ hbound
    cases fuel with
    | zero => omega
    | succ f =>
      have hlenK : (encodeStringChars k).length = (encodeChars k.data).length + 2 := by
        simp [encodeStringChars]
      cases fs' with
      | nil =>
        rw [stringifyFields_one] at hbound ⊢
        have hblen : (encodeStringChars k ++ ':' :: stringifyChars v).length =
            (encodeChars k.data).length + (stringifyChars v).length + 3 := by
          simp only [List.length_append, List.length_cons, hlenK]
          omega
        rw [show (encodeStringChars k ++ ':' :: stringifyChars v) ++ '\x7d' :: rest =
            '"' :: (encodeChars k.data ++
              '"' :: (':' :: (stringifyChars v ++ '\x7d' :: rest))) from by
          simp [encodeStringChars]]
        have hk := parseStringBody_encodeChars k.data
          (':' :: (stringifyChars v ++ '\x7d' :: rest))
        have hv : parseValue f (stringifyChars v ++ '\x7d' :: rest) =
            some (v, '\x7d' :: rest) :=
          parseValue_stringify v f ('\x7d' :: rest)
            (by simp only [List.length_cons]; rw [hblen] at hbound; omega)
            (noLeadingDigit_cons _ (by decide))
        rw [parseFields_close f hk hv]
      | cons f2 fs'' =>
        have hpos := stringifyChars_length_pos v
        rw [stringifyFields_cons] at hbound ⊢
        have hblen : (encodeStringChars k ++
            ':' :: stringifyChars v ++ ',' :: stringifyFields (f2 :: fs'')).length =
            (encodeChars k.data).length + (stringifyChars v).length +
              (stringifyFields (f2 :: fs'')).length + 4 := by
          simp only [List.length_append, List.length_cons, hlenK]
          omega
        rw [show (encodeStringChars k ++
            ':' :: stringifyChars v ++ ',' :: stringifyFields (f2 :: fs'')) ++ '\x7d' :: rest =
            '"' :: (encodeChars k.data ++ '"' :: (':' :: (stringifyChars v ++
              ',' :: (stringifyFields (f2 :: fs'') ++ '\x7d' :: rest)))) from by
          simp [encodeStringChars]]
        have hk := parseStringBody_encodeChars k.data
          (':' :: (stringifyChars v ++ ',' :: (stringifyFields (f2 :: fs'') ++ '\x7d' :: rest)))
        have hv : parseValue f
            (stringifyChars v ++ ',' :: (stringifyFields (f2 :: fs'') ++ '\x7d' :: rest)) =
            some (v, ',' :: (stringifyFields (f2 :: fs'') ++ '\x7d' :: rest)) :=
          parseValue_stringify v f _
            (by simp only [List.length_cons, List.length_append]
                rw [hblen] at hbound; omega)
            (noLeadingDigit_cons _ (by decide))
        rw [parseFields_comma f hk hv,
          parseFields_stringify (f2 :: fs'') f rest (by simp)
            (by rw [hblen] at hbound; omega)]
        simp [stringMkData]

end

/-- The JSON round-trip at the top level: parsing the canonical printed form of
any JSON value recovers the value exactly. -/
theorem jsonParse_jsonStringify (v : Json) : jsonParse (jsonStringify v) = some v := by
  unfold jsonParse jsonStringify
  have h := parseValue_stringify v (2 * (stringifyChars v).length + 1) []
    (by simp) (by simp [noLeadingDigit])
  rw [List.append_nil] at h
  rw [h]

theorem utf8LenChars_append (a b : List Char) :
    utf8LenChars (a ++ b) = utf8LenChars a + utf8LenChars b := by
  simp [utf8LenChars]

theorem utf8LenChars_cons (c : Char) (cs : List Char) :
    utf8LenChars (c :: cs) = utf8Size c + utf8LenChars cs := by
  simp [utf8LenChars]

theorem utf8Len_append (s t : String) : utf8Len (s ++ t) = utf8Len s + utf8Len t := by
  simp [utf8Len, utf8LenChars_append]

theorem utf8Size_pos (c : Char) : 1 ≤ utf8Size c := by
  unfold utf8Size
  split <;> try omega
  split <;> try omega
  split <;> omega

theorem utf8Size_le_four (c : Char) : utf8Size c ≤ 4 := by
  unfold utf8Size
  split <;> try omega
  split <;> try omega
  split <;> omega

theorem utf8Size_digit {c : Char} (h : isDigit c = true) : utf8Size c = 1 := by
  simp only [isDigit, Bool.and_eq_true, decide_eq_true_eq] at h
  unfold utf8Size
  rw [if_pos (by omega)]

theorem utf8LenChars_of_digits {cs : List Char} (h : ∀ c ∈ cs, isDigit c = true) :
    utf8LenChars cs = cs.length := by
  induction cs with
  | nil => rfl
  | cons c cs ih =>
    rw [utf8LenChars_cons, utf8Size_digit (h c (by simp)), List.length_cons,
      ih (fun c hc => h c (by simp [hc]))]
    omega

theorem utf8Len_natToString_le {k n : Nat} (hk : 1 ≤ k) (hn : n < 10 ^ k) :
    utf8Len (natToString n) ≤ k := by
  have hlen := natToChars_length_le hk hn
  have heq := utf8LenChars_of_digits (natToChars_all_digits n)
  unfold natToString utf8Len
  rw [show (String.mk (natToChars n)).data = natToChars n from rfl]
  omega

theorem utf8LenChars_replicate (n : Nat) (c : Char) :
    utf8LenChars (List.replicate n c) = n * utf8Size c := by
  simp [utf8LenChars]

theorem decodeReply_workerRespondErr (e : JxaErr)
    (hfit : utf8Len (errorWire e) < RESULT_BUFFER_SIZE) :
    decodeReply (workerRespondErr e) = .error (reconstructErr e) := by
  unfold workerRespondErr
  rw [if_neg (by omega)]
  unfold decodeReply
  rw [if_pos rfl]
  show (match jsonParse (errorWire e) with
    | none => _ | some j => _) = _
  rw [errorWire, jsonParse_jsonStringify]
  cases e <;> simp [getStr, getField, List.lookup, reconstructErr, serializeError, errMessage]

/-! ### Capacity bounds: the error wire of a bounded message always fits -/
theorem utf8LenChars_nil : utf8LenChars [] = 0 := rfl

theorem length_le_utf8LenChars (cs : List Char) : cs.length ≤ utf8LenChars cs := by
  induction cs with
  | nil => simp [utf8LenChars]
  | cons c cs ih =>
    rw [utf8LenChars_cons, List.length_cons]
    have := utf8Size_pos c
    omega

theorem utf8LenChars_le_four_mul (cs : List Char) : utf8LenChars cs ≤ 4 * cs.length := by
  induction cs with
  | nil => simp [utf8LenChars]
  | cons c cs ih =>
    rw [utf8LenChars_cons, List.length_cons]
    have := utf8Size_le_four c
    omega

theorem encodeChars_nil : encodeChars [] = [] := by rw [encodeChars.eq_def]

theorem encodeChars_cons (c : Char) (cs : List Char) :
    encodeChars (c :: cs) = encodeChar c ++ encodeChars cs := by
  rw [encodeChars.eq_def]

theorem encodeChar_length_le (c : Char) : (encodeChar c).length ≤ 6 := by
  unfold encodeChar
  repeat' split
  all_goals simp

theorem encodeChars_length_le (cs : List Char) : (encodeChars cs).length ≤ 6 * cs.length := by
  induction cs with
  | nil => rw [encodeChars_nil]; simp
  | cons c cs ih =>
    rw [encodeChars_cons]
    simp only [List.length_append, List.length_cons]
    have := encodeChar_length_le c
    omega

theorem utf8LenChars_encodeChars_le (cs : List Char) :
    utf8LenChars (encodeChars cs) ≤ 24 * utf8LenChars cs := by
  calc utf8LenChars (encodeChars cs) ≤ 4 * (encodeChars cs).length :=
        utf8LenChars_le_four_mul _
  _ ≤ 4 * (6 * cs.length) := by have := encodeChars_length_le cs; omega
  _ ≤ 24 * utf8LenChars cs := by have := length_le_utf8LenChars cs; omega

theorem utf8LenChars_encodeStringChars_le (s : String) :
    utf8LenChars (encodeStringChars s) ≤ 2 + 24 * utf8Len s := by
  unfold encodeStringChars
  rw [utf8LenChars_cons, utf8LenChars_append]
  have h := utf8LenChars_encodeChars_le s.data
  have h1 : utf8Size '"' = 1 := by decide
  have h2 : utf8LenChars ['"'] = 1 := by decide
  unfold utf8Len
  omega

theorem utf8Len_errObj_le (t m : String) :
    utf8Len (jsonStringify (.obj [("type", .str t), ("message", .str m)])) ≤
      40 + 24 * utf8Len t + 24 * utf8Len m := by
  unfold jsonStringify utf8Len
  rw [show (String.mk (stringifyChars (Json.obj [("type", Json.str t),
      ("message", Json.str m)]))).data =
    stringifyChars (Json.obj [("type", Json.str t), ("message", Json.str m)]) from rfl]
  rw [stringifyChars_obj, stringifyFields_cons, stringifyFields_one,
    stringifyChars_str, stringifyChars_str]
  simp only [utf8LenChars_cons, utf8LenChars_append, utf8LenChars_nil]
  have h1 : utf8LenChars (encodeStringChars "type") = 6 := by decide
  have h2 : utf8LenChars (encodeStringChars "message") = 9 := by decide
  have h3 := utf8LenChars_encodeStringChars_le t
  have h4 := utf8LenChars_encodeStringChars_le m
  have h5 : utf8Size '\x7b' = 1 := by decide
  have h6 : utf8Size '\x7d' = 1 := by decide
  have h7 : utf8Size ':' = 1 := by decide
  have h8 : utf8Size ',' = 1 := by decide
  have e1 : utf8Len t = utf8LenChars t.data := rfl
  have e2 : utf8Len m = utf8LenChars m.data := rfl
  omega

theorem utf8Len_overflowText_le {n : Nat} (lit : String) (hlit : utf8Len lit ≤ 22)
    (hn : n < 10 ^ 100) :
    utf8Len (lit ++ natToString n ++
      (" bytes) exceeds buffer size (" ++ natToString RESULT_BUFFER_SIZE ++ " bytes)")) ≤
      200 := by
  have h2 : utf8Len (" bytes) exceeds buffer size (") = 29 := by decide
  have h3 : utf8Len " bytes)" = 7 := by decide
  have h4 : utf8Len (natToString RESULT_BUFFER_SIZE) = 5 := by decide
  have h5 := utf8Len_natToString_le (k := 100) (by omega) hn
  simp only [utf8Len_append]
  omega

theorem utf8Len_truncatedErrorWire_lt {n : Nat} (hn : n < 10 ^ 100) :
    utf8Len (truncatedErrorWire n) < RESULT_BUFFER_SIZE := by
  unfold truncatedErrorWire
  have h := utf8Len_errObj_le "BufferOverflowError"
    ("Error message length (" ++ natToString n ++
      (" bytes) exceeds buffer size (" ++ natToString RESULT_BUFFER_SIZE ++ " bytes)"))
  have ht : utf8Len "BufferOverflowError" = 19 := by decide
  have hm := utf8Len_overflowText_le "Error message length (" (by decide) hn
  have hR : RESULT_BUFFER_SIZE = 16000 := rfl
  omega

theorem utf8Len_errorWire_bufferOverflow_lt {n : Nat} (hn : n < 10 ^ 100) :
    utf8Len (errorWire (.bufferOverflow (bufferOverflowMsg n))) < RESULT_BUFFER_SIZE := by
  rw [show errorWire (.bufferOverflow (bufferOverflowMsg n)) =
    jsonStringify (.obj [("type", .str "BufferOverflowError"),
      ("message", .str (bufferOverflowMsg n))]) from rfl]
  have h := utf8Len_errObj_le "BufferOverflowError" (bufferOverflowMsg n)
  have ht : utf8Len "BufferOverflowError" = 19 := by decide
  have hm : utf8Len (bufferOverflowMsg n) ≤ 200 := by
    unfold bufferOverflowMsg
    exact utf8Len_overflowText_le "Message length (" (by decide) hn
  have hR : RESULT_BUFFER_SIZE = 16000 := rfl
  omega

/-- C4: a success result of 16000 or more UTF-8 bytes makes the call fail with
a `BufferOverflowError` whose message states the encoded length and the
capacity; and a serialized error payload that would itself reach capacity is
replaced by the fixed capacity-safe fallback noting the oversized length,
which provably never overflows the payload segment.  (The size hypotheses
`< 10 ^ 100` bound the lengths any physical string can have; without them the
digits of the reported length could themselves be made to overflow.) -/
theorem worker_buffer_overflow :
    (∀ result : String, RESULT_BUFFER_SIZE ≤ utf8Len result → utf8Len result < 10 ^ 100 →
      decodeReply (workerRespond (.ok result)) =
        .error (.bufferOverflow (bufferOverflowMsg (utf8Len result)))) ∧
    (∀ e : JxaErr, RESULT_BUFFER_SIZE ≤ utf8Len (errorWire e) →
      utf8Len (errorWire e) < 10 ^ 100 →
      workerRespondErr e = ⟨truncatedErrorWire (utf8Len (errorWire e)), 2⟩ ∧
      utf8Len (truncatedErrorWire (utf8Len (errorWire e))) < RESULT_BUFFER_SIZE) := by
  constructor
  · intro result hov hbound
    rw [show workerRespond (.ok result) =
      (if RESULT_BUFFER_SIZE ≤ utf8Len result then
        workerRespondErr (.bufferOverflow (bufferOverflowMsg (utf8Len result)))
      else ⟨result, 1⟩) from rfl]
    rw [if_pos hov,
      decodeReply_workerRespondErr _ (utf8Len_errorWire_bufferOverflow_lt hbound)]
    rfl
  · intro e hov hbound
    refine ⟨?_, utf8Len_truncatedErrorWire_lt hbound⟩
    unfold workerRespondErr
    rw [if_pos hov]

theorem worker_buffer_overflow_witness :
    (RESULT_BUFFER_SIZE ≤ utf8Len (String.mk (List.replicate 16000 'a')) ∧
      utf8Len (String.mk (List.replicate 16000 'a')) < 10 ^ 100 ∧
      decodeReply (workerRespond (.ok (String.mk (List.replicate 16000 'a')))) =
        .error (.bufferOverflow
          (bufferOverflowMsg (utf8Len (String.mk (List.replicate 16000 'a')))))) ∧
    (RESULT_BUFFER_SIZE ≤ utf8Len (errorWire (.generic (String.mk (List.replicate 16000 'a')))) ∧
      workerRespondErr (.generic (String.mk (List.replicate 16000 'a'))) =
        ⟨truncatedErrorWire
          (utf8Len (errorWire (.generic (String.mk (List.replicate 16000 'a'))))), 2⟩) := by
  have hlen : utf8Len (String.mk (List.replicate 16000 'a')) = 16000 := by
    show utf8LenChars (List.replicate 16000 'a') = 16000
    rw [utf8LenChars_replicate]
    decide
  have hwire : utf8Len (errorWire (.generic (String.mk (List.replicate 16000 'a')))) = 16029 := by
    rw [show errorWire (.generic (String.mk (List.replicate 16000 'a'))) =
      jsonStringify (.obj [("type", .str "Error"),
        ("message", .str (String.mk (List.replicate 16000 'a')))]) from rfl]
    unfold jsonStringify utf8Len
    rw [show (String.mk (stringifyChars (Json.obj [("type", Json.str "Error"),
        ("message", Json.str (String.mk (List.replicate 16000 'a')))]))).data =
      stringifyChars (Json.obj [("type", Json.str "Error"),
        ("message", Json.str (String.mk (List.replicate 16000 'a')))]) from rfl]
    rw [stringifyChars_obj, stringifyFields_cons, stringifyFields_one,
      stringifyChars_str, stringifyChars_str]
    simp only [utf8LenChars_cons, utf8LenChars_append, utf8LenChars_nil]
    have henc : encodeChars (String.mk (List.replicate 16000 'a')).data =
        List.replicate 16000 'a' := by
      show encodeChars (List.replicate 16000 'a') = List.replicate 16000 'a'
      have : ∀ n : Nat, encodeChars (List.replicate n 'a') = List.replicate n 'a' := by
        intro n
        induction n with
        | zero => rw [List.replicate_zero, encodeChars_nil]
        | succ m ih =>
          rw [List.replicate_succ, encodeChars_cons, ih]
          rfl
      exact this 16000
    rw [show utf8LenChars (encodeStringChars (String.mk (List.replicate 16000 'a'))) =
      2 + utf8LenChars (encodeChars (String.mk (List.replicate 16000 'a')).data) from by
        unfold encodeStringChars
        rw [utf8LenChars_cons, utf8LenChars_append]
        have : utf8LenChars ['"'] = 1 := by decide
        have : utf8Size '"' = 1 := by decide
        omega]
    rw [henc, utf8LenChars_replicate]
    decide
  have hc : RESULT_BUFFER_SIZE = 16000 := rfl
  refine ⟨⟨by omega, by rw [hlen]; norm_num,
    (worker_buffer_overflow.1 _ (by omega) (by rw [hlen]; norm_num))⟩,
    by omega,
    ((worker_buffer_overflow.2 _ (by omega) (by rw [hwire]; norm_num)).1)⟩

/-- C7: for every request outcome, success or failure of any kind, the done
flag is stored exactly once, after the payload and status words and before
only the wake-up call, so the blocked caller is always woken. -/
theorem done_flag_always_last (outcome : Except JxaErr String) :
    onmessageActions outcome =
      [.writePayload (workerRespond outcome).payload,
        .storeStatus (workerRespond outcome).status, .storeDone, .notify] ∧
    (onmessageActions outcome).count .storeDone = 1 := by
  rcases hword : workerRespond outcome with ⟨p, st⟩
  constructor
  · simp [onmessageActions, hword]
  · simp [onmessageActions, hword, List.count_cons]

/-- C5 (amended): every bridge-side failure crossing the foreground/background
boundary is reconstructed from the error wire format, but only the three kinds
in the worker's `instanceof` chain (`MultiLineCodeError`, `ReplExecutionError`,
`BufferOverflowError`) come back as their taxonomy members; `StreamEndedError`
is serialized with kind `"Error"` and therefore crosses as a plain generic
`Error` preserving its message, like every other unrecognized kind. -/
theorem bridge_error_reconstruction (e : JxaErr)
    (hfit : utf8Len (errorWire e) < RESULT_BUFFER_SIZE) :
    decodeReply (workerRespondErr e) = .error (reconstructErr e) ∧
      reconstructErr .streamEnded = .generic (errMessage .streamEnded) :=
  ⟨decodeReply_workerRespondErr e hfit, rfl⟩

theorem bridge_error_reconstruction_witness :
    utf8Len (errorWire .streamEnded) < RESULT_BUFFER_SIZE ∧
      decodeReply (workerRespondErr .streamEnded) = .error (reconstructErr .streamEnded) :=
  ⟨by norm_num [show utf8Len (errorWire .streamEnded) = 54 from rfl, RESULT_BUFFER_SIZE],
    (bridge_error_reconstruction .streamEnded
      (by norm_num [show utf8Len (errorWire .streamEnded) = 54 from rfl,
        RESULT_BUFFER_SIZE])).1⟩

/-- C5, the claim as stated is false on the code: a background
`StreamEndedError` is not reconstructed as `StreamEndedError` on the
foreground side — it surfaces as a plain `Error` with the same message,
because the worker's serialization chain never tests for it. -/
theorem streamEnded_not_reconstructed :
    decodeReply (workerRespond (.error .streamEnded)) ≠ .error .streamEnded ∧
      decodeReply (workerRespond (.error .streamEnded)) =
        .error (.generic "Stream ended unexpectedly") :=
  ⟨fun h => absurd (Except.error.inj h) (by intro h2; cases h2), rfl⟩

theorem createVarRun_nil (s : Session) : createVarRun s [] = [] := by
  rw [createVarRun.eq_def]

theorem createVarRun_cons (s : Session) (e : String) (es : List String) :
    createVarRun s (e :: es) = (s.createVar e).1 :: createVarRun (s.createVar e).2 es := by
  rw [createVarRun.eq_def]

theorem createVarRunState_nil (s : Session) : createVarRunState s [] = s := by
  rw [createVarRunState.eq_def]

theorem createVarRunState_cons (s : Session) (e : String) (es : List String) :
    createVarRunState s (e :: es) = createVarRunState (s.createVar e).2 es := by
  rw [createVarRunState.eq_def]

theorem createVarRun_names (exprs : List String) :
    ∀ s, createVarRun s exprs =
      (List.range exprs.length).map (fun i => "$" ++ natToString (s.counter + i)) := by
  induction exprs with
  | nil => intro s; rw [createVarRun_nil]; rfl
  | cons e es ih =>
    intro s
    have htail : List.map ((fun i => "$" ++ natToString (s.counter + i)) ∘ Nat.succ)
        (List.range es.length) =
        List.map (fun i => "$" ++ natToString (s.counter + 1 + i)) (List.range es.length) := by
      apply List.map_congr_left
      intro a ha
      simp only [Function.comp_apply]
      have h1 : s.counter + (a + 1) = s.counter + 1 + a := by omega
      rw [h1]
    rw [createVarRun_cons, ih, show (s.createVar e).2.counter = s.counter + 1 from rfl,
      show (s.createVar e).1 = "$" ++ natToString s.counter from rfl,
      List.length_cons, List.range_succ_eq_map, List.map_cons, List.map_map, htail]
    simp

theorem dollarName_injective : Function.Injective (fun n : Nat => "$" ++ natToString n) := by
  intro a b hab
  have hab' : "$" ++ natToString a = "$" ++ natToString b := hab
  have hd : ("$" ++ natToString a).data = ("$" ++ natToString b).data := by rw [hab']
  have h2 : natToChars a = natToChars b := by
    simpa [natToString, String.data_append] using hd
  exact natToChars_injective h2

theorem createVarRun_nodup (s : Session) (exprs : List String) :
    (createVarRun s exprs).Nodup := by
  rw [createVarRun_names]
  refine List.Nodup.map ?_ (List.nodup_range _)
  intro a b hab
  have hab' : "$" ++ natToString (s.counter + a) = "$" ++ natToString (s.counter + b) := hab
  have := dollarName_injective hab'
  omega

theorem createVarRunState_executed_prefix (exprs : List String) :
    ∀ s : Session, ∃ tail, (createVarRunState s exprs).executed = s.executed ++ tail := by
  induction exprs with
  | nil => intro s; exact ⟨[], by rw [createVarRunState_nil]; simp⟩
  | cons e es ih =>
    intro s
    obtain ⟨t, ht⟩ := ih (s.createVar e).2
    refine ⟨["const " ++ ("$" ++ natToString s.counter) ++ " = " ++ e] ++ t, ?_⟩
    rw [createVarRunState_cons, ht,
      show (s.createVar e).2.executed =
        s.executed ++ ["const " ++ ("$" ++ natToString s.counter) ++ " = " ++ e] from rfl]
    simp

theorem createVarRunState_executed (exprs : List String) :
    ∀ (s : Session) (N : Nat) (e : String), exprs[N]? = some e →
      (createVarRunState s exprs).executed[s.executed.length + N]? =
        some ("const " ++ ("$" ++ natToString (s.counter + N)) ++ " = " ++ e) := by
  induction exprs with
  | nil => intro s N e h; simp at h
  | cons e0 es ih =>
    intro s N e h
    rw [createVarRunState_cons]
    cases N with
    | zero =>
      rw [List.getElem?_cons_zero, Option.some.injEq] at h
      subst h
      obtain ⟨tail, htail⟩ := createVarRunState_executed_prefix es (s.createVar e0).2
      rw [htail,
        show (s.createVar e0).2.executed =
          s.executed ++ ["const " ++ ("$" ++ natToString s.counter) ++ " = " ++ e0] from rfl,
        List.append_assoc, List.getElem?_append_right (by omega)]
      simp
    | succ M =>
      rw [List.getElem?_cons_succ] at h
      have hrec := ih (s.createVar e0).2 M e h
      have hlen : (s.createVar e0).2.executed.length = s.executed.length + 1 := by
        rw [show (s.createVar e0).2.executed =
          s.executed ++ ["const " ++ ("$" ++ natToString s.counter) ++ " = " ++ e0] from rfl]
        simp
      rw [show s.executed.length + (M + 1) = (s.createVar e0).2.executed.length + M from by
          omega,
        show s.counter + (M + 1) = (s.createVar e0).2.counter + M from by
          show _ = s.counter + 1 + M
          omega]
      exact hrec

/-- C9: within one session, the N-th `createVar` call (counting from zero)
mints the name `$N`, executes exactly the statement `const $N = <expr>`, and
returns `$N`; the names minted by distinct calls are pairwise distinct. -/
theorem createVar_mints_sequential_names (exprs : List String) (N : Nat) (e : String)
    (he : exprs[N]? = some e) :
    (createVarRun (sessionInit 0) exprs)[N]? = some ("$" ++ natToString N) ∧
    (createVarRunState (sessionInit 0) exprs).executed[N]? =
      some ("const " ++ ("$" ++ natToString N) ++ " = " ++ e) ∧
    (createVarRun (sessionInit 0) exprs).Nodup := by
  have hN : N < exprs.length := by
    by_contra hcon
    rw [List.getElem?_eq_none (by omega)] at he
    cases he
  refine ⟨?_, ?_, createVarRun_nodup _ _⟩
  · rw [createVarRun_names]
    simp [List.getElem?_range, hN, sessionInit]
  · have := createVarRunState_executed exprs (sessionInit 0) N e he
    simpa [sessionInit] using this

theorem createVar_mints_sequential_names_witness :
    (["1 + 1", "2"] : List String)[1]? = some "2" ∧
      ((createVarRun (sessionInit 0) ["1 + 1", "2"])[1]? = some ("$" ++ natToString 1) ∧
      (createVarRunState (sessionInit 0) ["1 + 1", "2"]).executed[1]? =
        some ("const " ++ ("$" ++ natToString 1) ++ " = " ++ "2") ∧
      (createVarRun (sessionInit 0) ["1 + 1", "2"]).Nodup) :=
  ⟨rfl, createVar_mints_sequential_names ["1 + 1", "2"] 1 "2" rfl⟩

/-- C2: for every JSON-representable value `v`, `wrap v` succeeds and
`unwrap (wrap v)` deep-equals `v`, under the modelled collaborator contract
that the interpreter echoes a bound value's canonical JSON textual form:
`wrap` JSON-encodes `v` and binds it remotely, `unwrap` evaluates the
binding's name and JSON-parses the echoed text back. -/
theorem unwrap_wrap_roundtrip (s : Session) (v : Json) :
    ∃ h s', s.wrap (.json v) = .ok (h, s') ∧ (s'.unwrap h).1 = .ok v := by
  refine ⟨s.handleFor (s.createVar (jsonStringify v)).1, (s.createVar (jsonStringify v)).2,
    rfl, ?_⟩
  unfold Session.unwrap Session.owns Session.handleFor Session.unsafeExecute remoteEcho
    Session.createVar evalRemote
  simp [jsonParse_jsonStringify, List.lookup]

/-- C6: in a proxied invocation, each argument that is a handle owned by the
same session is substituted by its remote variable name verbatim, every other
argument is JSON-encoded as a literal; the composed
`Reflect.apply(<fn var>, <this-context or "undefined">, [<args>])` expression
is passed to `createVar`, and the minted name comes back as a fresh handle of
the same session. -/
theorem proxy_apply_encoding (s : Session) (h : Handle) (args : List Val)
    (hargs : ∀ a ∈ args,
      (∃ hh, a = .handle hh ∧ hh.sid = s.sid) ∨ ∃ v, a = .json v) :
    proxyApply s h args =
      (let expr := "Reflect.apply(" ++ h.varName ++ ", " ++
          h.thisContext.getD "undefined" ++ ", [" ++
          joinComma (args.map fun a => match a with
            | .handle hh => hh.varName
            | .json v => jsonStringify v
            | .fn _ => "") ++ "])"
        let p := s.createVar expr
        (⟨s.sid, p.1, none⟩, p.2)) := by
  unfold proxyApply Session.handleFor
  have hmap : args.map (argString s) = args.map (fun a => match a with
      | .handle hh => hh.varName
      | .json v => jsonStringify v
      | .fn _ => "") := by
    apply List.map_congr_left
    intro a ha
    rcases hargs a ha with ⟨hh, rfl, hsid⟩ | ⟨v, rfl⟩
    · simp [argString, Session.owns, hsid]
    · simp [argString, Session.owns]
  rw [hmap]

theorem proxy_apply_encoding_witness :
    (∀ a ∈ ([Val.handle ⟨7, "$0", none⟩, Val.json (.num 5)] : List Val),
      (∃ hh, a = Val.handle hh ∧ hh.sid = (sessionInit 7).sid) ∨ ∃ v, a = Val.json v) ∧
    proxyApply (sessionInit 7) ⟨7, "$1", some "$0"⟩
        [Val.handle ⟨7, "$0", none⟩, Val.json (.num 5)] =
      (let expr := "Reflect.apply(" ++ "$1" ++ ", " ++
          (some "$0").getD "undefined" ++ ", [" ++
          joinComma (([Val.handle ⟨7, "$0", none⟩, Val.json (.num 5)] : List Val).map fun a =>
            match a with
            | .handle hh => hh.varName
            | .json v => jsonStringify v
            | .fn _ => "") ++ "])"
        let p := (sessionInit 7).createVar expr
        (⟨(sessionInit 7).sid, p.1, none⟩, p.2)) := by
  have hargs : ∀ a ∈ ([Val.handle ⟨7, "$0", none⟩, Val.json (.num 5)] : List Val),
      (∃ hh, a = Val.handle hh ∧ hh.sid = (sessionInit 7).sid) ∨ ∃ v, a = Val.json v := by
    intro a ha
    simp only [List.mem_cons, List.not_mem_nil, or_false] at ha
    rcases ha with rfl | rfl
    · exact Or.inl ⟨⟨7, "$0", none⟩, rfl, rfl⟩
    · exact Or.inr ⟨.num 5, rfl⟩
  exact ⟨hargs, proxy_apply_encoding (sessionInit 7) ⟨7, "$1", some "$0"⟩ _ hargs⟩

/-- C8: `unwrap` on a handle not owned by the session fails with a distinct
`TypeError` that is outside the `JXAError` family, before anything is sent to
the bridge: the session state — in particular the list of statements that
reached the interpreter — is completely unchanged. -/
theorem unwrap_ownership_guard (s : Session) (h : Handle)
    (hno : s.owns (.handle h) = false) :
    s.unwrap h = (.error (.typeError "Handle does not belong to this session"), s) ∧
      (s.unwrap h).2.executed = s.executed ∧
      isJXAError (.typeError "Handle does not belong to this session") = false := by
  unfold Session.unwrap
  rw [hno]
  simp [isJXAError]

theorem unwrap_ownership_guard_witness :
    (sessionInit 1).owns (.handle ⟨0, "$0", none⟩) = false ∧
      ((sessionInit 1).unwrap ⟨0, "$0", none⟩ =
        (.error (.typeError "Handle does not belong to this session"), sessionInit 1) ∧
      ((sessionInit 1).unwrap ⟨0, "$0", none⟩).2.executed = (sessionInit 1).executed ∧
      isJXAError (.typeError "Handle does not belong to this session") = false) :=
  ⟨rfl, unwrap_ownership_guard (sessionInit 1) ⟨0, "$0", none⟩ rfl⟩

/-- C10 (amended): a symbol-keyed proxy read returns the handle's stored
internal field and a symbol-keyed write returns `false`, both leaving the
session — and so the bridge and the remote environment — untouched;
string-keyed reads always submit a statement through the bridge, and
string-keyed writes submit at least one statement except when wrapping the
assigned value itself throws — a foreign-session handle value, whose
attempted string conversion raises `TypeError` inside the trap before
anything is submitted through this session's bridge, leaving the session
unchanged. -/
theorem symbol_keys_bypass_bridge (s : Session) (h : Handle) :
    (∀ k, proxyGet s h (.symbolKey k) = (.symVal (h.symField k), s)) ∧
    (∀ k v, proxySet s h (.symbolKey k) v = (.ok false, s)) ∧
    (∀ key, (proxyGet s h (.stringKey key)).2.executed.length = s.executed.length + 1) ∧
    (∀ key v, (∀ hh, v = Val.handle hh → hh.sid = s.sid) →
      s.executed.length < (proxySet s h (.stringKey key) v).2.executed.length) ∧
    (∀ key hh, hh.sid ≠ s.sid →
      proxySet s h (.stringKey key) (.handle hh) =
        (.error (.typeError "Cannot convert object to primitive value"), s)) := by
  refine ⟨fun k => rfl, fun k v => rfl, fun key => ?_, fun key v hv => ?_, fun key hh hne => ?_⟩
  · simp [proxyGet, Session.createVar]
  · unfold proxySet Session.wrap Session.unsafeExecute Session.createVar
    cases v with
    | handle hh => simp [hv hh rfl]
    | json v => simp
    | fn src => simp
  · unfold proxySet Session.wrap
    simp [hne]

theorem symbol_keys_bypass_bridge_witness :
    (∀ hh, Val.json (.num 3) = Val.handle hh → hh.sid = (sessionInit 0).sid) ∧
      (sessionInit 0).executed.length <
        (proxySet (sessionInit 0) ⟨0, "$1", none⟩ (.stringKey "k")
          (Val.json (.num 3))).2.executed.length :=
  ⟨(fun hh hc => by cases hc),
    ((symbol_keys_bypass_bridge (sessionInit 0) ⟨0, "$1", none⟩).2.2.2.1 "k"
      (Val.json (.num 3)) (fun hh hc => by cases hc))⟩

/-- C10, the claim's universal clause as stated is false on the code: a
string-keyed write whose assigned value is a handle of a *different* session
submits nothing through this session's bridge — `wrap`'s string conversion of
the foreign proxy throws `TypeError` first, and the session state is
unchanged. -/
theorem string_write_foreign_sends_nothing :
    proxySet (sessionInit 0) ⟨0, "$1", none⟩ (.stringKey "k") (.handle ⟨1, "$0", none⟩) =
      (.error (.typeError "Cannot convert object to primitive value"), sessionInit 0) ∧
    ¬ (sessionInit 0).executed.length <
      (proxySet (sessionInit 0) ⟨0, "$1", none⟩ (.stringKey "k")
        (.handle ⟨1, "$0", none⟩)).2.executed.length :=
  ⟨rfl, by decide⟩

end DenoJxa
